import Mathlib

/-!
Shallow embedding of `src/pdf_chapter_extractor.py`.

The program splits a PDF into per-chapter files driven by its bookmark
(outline) tree.  We embed the pure data transformations:

* `sanitize_filename`            (source lines 6-21)
* `find_chapter_bookmarks`       (source lines 23-51)
* `get_available_bookmark_levels` (source lines 53-63)
* the sort / dedup / range-resolution / emission pipeline of
  `extract_chapters_from_pdf`    (source lines 89-177)

File-system and PDF-library effects are abstracted: the outline is a tree
of destinations and groups, destination resolution is an `Option Nat`
(`none` models both a `None` page and a caught resolution exception), and
copying page `p` out of the source document succeeds iff `pageOk p`.
Console output on the skip paths is modelled by `EmitWarning` values.
-/

/-- The characters matched by the regex `[<>:"/\\|?*]` on source line 14. -/
def invalidFilenameChar (c : Char) : Bool :=
  c == '<' || c == '>' || c == ':' || c == '"' || c == '/' ||
  c == '\\' || c == '|' || c == '?' || c == '*'

/-- ASCII whitespace as matched by the regex class `\s` and by `str.strip`
on source lines 15-16.  (Python also matches further Unicode whitespace;
no input in this development uses any.) -/
def isPythonSpace (c : Char) : Bool :=
  c == ' ' || c == '\t' || c == '\n' || c == '\r' || c == '\x0b' || c == '\x0c'

/-- Model of `re.sub` with pattern `\s+` on source line 16: every maximal run of
whitespace becomes a single space.  The boolean argument records whether
the previous character belonged to a whitespace run. -/
def collapseSpaces : Bool → List Char → List Char
  | _, [] => []
  | prevWs, c :: rest =>
    if isPythonSpace c then
      if prevWs then collapseSpaces true rest
      else ' ' :: collapseSpaces true rest
    else c :: collapseSpaces false rest

/-- Model of `.strip()` on source line 16: drop leading and trailing whitespace. -/
def stripSpaces (l : List Char) : List Char :=
  ((l.dropWhile isPythonSpace).reverse.dropWhile isPythonSpace).reverse

/-- Source lines 6-21 (`sanitize_filename`): empty input gives
`"untitled"`; otherwise replace invalid filename characters by `_`,
collapse whitespace runs to a single space, strip, truncate to 150
characters, and fall back to `"untitled_chapter"` when nothing is left. -/
def sanitize_filename (name : String) : String :=
  if name = "" then "untitled"
  else
    let replaced := name.data.map (fun c => if invalidFilenameChar c then '_' else c)
    let cleaned := stripSpaces (collapseSpaces false replaced)
    let truncated := cleaned.take 150
    if truncated = [] then "untitled_chapter" else String.mk truncated

/-- An outline item (source line 26): either a Destination leaf carrying a
title and an optional resolved zero-based page number (`none` models an
unresolvable internal link, source lines 42-50), or a list of
sub-bookmarks. -/
inductive OutlineNode where
  | dest (title : String) (target : Option Nat)
  | group (children : List OutlineNode)

/-- The dictionaries appended on source lines 44-48. -/
structure ChapterStart where
  title : String
  start_page : Nat
  level : Int
deriving Repr, DecidableEq

/-- Source lines 23-51 (`find_chapter_bookmarks`): collect the
destinations sitting at depth exactly `target_level`, recursing into a
sub-list only while `current_level < target_level`; a destination away
from the target depth, or one whose page cannot be resolved, yields
nothing. -/
def find_chapter_bookmarks : List OutlineNode → Int → Int → List ChapterStart
  | [], _, _ => []
  | OutlineNode.group sub :: rest, target_level, current_level =>
    (if current_level < target_level then
      find_chapter_bookmarks sub target_level (current_level + 1)
    else []) ++ find_chapter_bookmarks rest target_level current_level
  | OutlineNode.dest title target :: rest, target_level, current_level =>
    (if current_level = target_level then
      match target with
      | some page_num => [ChapterStart.mk title page_num current_level]
      | none => []
    else []) ++ find_chapter_bookmarks rest target_level current_level

/-- Source lines 53-63 (`get_available_bookmark_levels`): the set of
depths occupied by at least one Destination (resolvable or not). -/
def get_available_bookmark_levels : List OutlineNode → Int → Finset Int
  | [], _ => ∅
  | OutlineNode.group sub :: rest, current_level =>
    get_available_bookmark_levels sub (current_level + 1) ∪
      get_available_bookmark_levels rest current_level
  | OutlineNode.dest _ _ :: rest, current_level =>
    insert current_level (get_available_bookmark_levels rest current_level)

/-- Spec-side predicate (section 4.2 of the spec): some Destination leaf
occurs at relative Group-nesting depth `d` of the forest.  Used to compare
`get_available_bookmark_levels` against the spec's description. -/
def specHasDestAtDepth : List OutlineNode → Int → Bool
  | [], _ => false
  | OutlineNode.group sub :: rest, d =>
    specHasDestAtDepth sub (d - 1) || specHasDestAtDepth rest d
  | OutlineNode.dest _ _ :: rest, d =>
    (d == 0) || specHasDestAtDepth rest d

/-- Spec-side predicate (section 4.1 of the spec): a Destination with the
given title, resolving to the given page, occurs at relative depth `d`. -/
def specResolvableDestAt : List OutlineNode → Int → String → Nat → Bool
  | [], _, _, _ => false
  | OutlineNode.group sub :: rest, d, t, p =>
    specResolvableDestAt sub (d - 1) t p || specResolvableDestAt rest d t p
  | OutlineNode.dest t2 tgt :: rest, d, t, p =>
    (d == 0 && t2 == t && tgt == some p) || specResolvableDestAt rest d t p

/-- The comparison key of the sort on source line 106. -/
def chapterLE (a b : ChapterStart) : Prop := a.start_page ≤ b.start_page

instance : DecidableRel chapterLE := fun a b => Nat.decLe a.start_page b.start_page

instance : IsTotal ChapterStart chapterLE := ⟨fun a b => Nat.le_total a.start_page b.start_page⟩

instance : IsTrans ChapterStart chapterLE := ⟨fun _ _ _ => Nat.le_trans⟩

/-- Source line 106: `chapter_starts.sort(key=lambda x: x['start_page'])`.
Python's sort is stable; we model it by the (stable) insertion sort. -/
def sortChapterStarts (l : List ChapterStart) : List ChapterStart :=
  l.insertionSort chapterLE

/-- Source lines 110-116: keep the first record seen for each distinct
`start_page`, threading the `seen_pages` set. -/
def dedupChapterStarts : List ChapterStart → List Nat → List ChapterStart
  | [], _ => []
  | ch_info :: rest, seen_pages =>
    if ch_info.start_page ∈ seen_pages then dedupChapterStarts rest seen_pages
    else ch_info :: dedupChapterStarts rest (ch_info.start_page :: seen_pages)

/-- The whole sort-and-dedup stage, source lines 105-116. -/
def sortDedup (l : List ChapterStart) : List ChapterStart :=
  dedupChapterStarts (sortChapterStarts l) []

/-- Source lines 130-136: the inclusive end page of the chapter at
position `i` — one page before the next chapter's start when a next
chapter exists, otherwise the document's last page. -/
def endPageAt (chapter_starts : List ChapterStart) (num_pages_total : Int) (i : Nat) : Int :=
  match chapter_starts[i + 1]? with
  | some next_chapter => (next_chapter.start_page : Int) - 1
  | none => num_pages_total - 1

/-- Zero-padded decimal of width at least three: `f"{n:03d}"` for `n ≥ 0`. -/
def pad3 (n : Nat) : String :=
  let s := toString n
  String.mk (List.replicate (3 - s.length) '0') ++ s

/-- Source line 167: the emitted file's name for the chapter at 0-based
position `i` of the deduplicated list. -/
def output_filename (i : Nat) (title : String) : String :=
  pad3 (i + 1) ++ "_" ++ sanitize_filename title ++ ".pdf"

/-- Python's `range(s, e + 1)` over integers (source line 154). -/
def pageIndexRange (s e : Int) : List Int :=
  (List.range (e + 1 - s).toNat).map (fun k => s + k)

/-- One successfully written chapter file: the numeric filename prefix
`idx = i + 1`, the full filename, and the pages its writer holds. -/
structure EmittedFile where
  idx : Nat
  filename : String
  pages : List Int
deriving Repr, DecidableEq

/-- The warnings printed on the skip paths of the emission loop. -/
inductive EmitWarning where
  | emptySpan (title : String) (s e : Int)
  | invalidRange (title : String) (s e : Int)
  | pageError (title : String) (page : Int)
  | emptyChapter (title : String)
deriving Repr, DecidableEq

/-- One iteration of the emission loop, source lines 125-167: compute the
page range of the chapter at position `i`, skip it (with a warning) when
the span is empty or out of bounds, copy the pages that survive `pageOk`
(warning for each failed page), and skip the chapter when no page made it. -/
def processChapter (chapter_starts : List ChapterStart) (num_pages_total : Int)
    (pageOk : Int → Bool) (i : Nat) (c : ChapterStart) :
    Option EmittedFile × List EmitWarning :=
  let start_page_idx : Int := c.start_page
  let end_page_idx := endPageAt chapter_starts num_pages_total i
  if start_page_idx > end_page_idx then
    (none, [EmitWarning.emptySpan c.title start_page_idx end_page_idx])
  else if ¬ (0 ≤ start_page_idx ∧ start_page_idx < num_pages_total ∧
      0 ≤ end_page_idx ∧ end_page_idx < num_pages_total) then
    (none, [EmitWarning.invalidRange c.title start_page_idx end_page_idx])
  else
    let all_pages := pageIndexRange start_page_idx end_page_idx
    let page_warnings := (all_pages.filter (fun p => ! pageOk p)).map
      (EmitWarning.pageError c.title)
    let pages := all_pages.filter pageOk
    if pages = [] then
      (none, page_warnings ++ [EmitWarning.emptyChapter c.title])
    else
      (some ⟨i + 1, output_filename i c.title, pages⟩, page_warnings)

/-- The emission loop over the enumerated chapter list, gathering files
and warnings in order. -/
def emitLoop (chapter_starts : List ChapterStart) (num_pages_total : Int)
    (pageOk : Int → Bool) : List (Nat × ChapterStart) → List EmittedFile × List EmitWarning
  | [] => ([], [])
  | (i, c) :: rest =>
    let step := processChapter chapter_starts num_pages_total pageOk i c
    let next := emitLoop chapter_starts num_pages_total pageOk rest
    (step.1.toList ++ next.1, step.2 ++ next.2)

/-- Source lines 125-175: emit every chapter of the (already deduplicated)
list in order. -/
def emitChapters (chapter_starts : List ChapterStart) (num_pages_total : Int)
    (pageOk : Int → Bool) : List EmittedFile × List EmitWarning :=
  emitLoop chapter_starts num_pages_total pageOk chapter_starts.enum

/-- The observable outcome of a run past the document-loading stage. -/
inductive ExtractResult where
  | noBookmarksAtLevel (available : Finset Int)
  | noValidAfterFilter
  | extracted (files : List EmittedFile) (warnings : List EmitWarning)
deriving DecidableEq

/-- Source lines 94-177 (`extract_chapters_from_pdf`, after the document
is open): find the bookmarks at `chapter_level`; when none, report the
levels that do have bookmarks (lines 96-103); sort and deduplicate (lines
105-116); the defensive empty check of lines 118-120; then the emission
loop. -/
def extract_chapters_from_pdf (outline : List OutlineNode) (chapter_level : Int)
    (num_pages_total : Int) (pageOk : Int → Bool) : ExtractResult :=
  let chapter_starts := find_chapter_bookmarks outline chapter_level 0
  if chapter_starts = [] then
    ExtractResult.noBookmarksAtLevel (get_available_bookmark_levels outline 0)
  else
    let unique_chapter_starts := dedupChapterStarts (sortChapterStarts chapter_starts) []
    if unique_chapter_starts = [] then
      ExtractResult.noValidAfterFilter
    else
      let result := emitChapters unique_chapter_starts num_pages_total pageOk
      ExtractResult.extracted result.1 result.2

/-- C2 counterexample: a title consisting solely of the disallowed
characters is sanitized to nine underscores — the disallowed characters
are replaced by `_`, not removed — and not to `"untitled_chapter"`. -/
theorem sanitize_filename_all_invalid_counterexample :
    sanitize_filename "<>:\"/\\|?*" = "_________" ∧
    sanitize_filename "<>:\"/\\|?*" ≠ "untitled_chapter" := by
  decide

/-- C2 (amended): the spec's sanitization vectors, with the fourth
corrected to what the code computes: the empty title gives `"untitled"`,
`"A/B:C"` gives `"A_B_C"`, a 300-character title is truncated to 150
characters, a title of the nine disallowed characters gives nine
underscores, and `"untitled_chapter"` appears exactly when a non-empty
title sanitizes to nothing, e.g. a whitespace-only title. -/
theorem sanitize_filename_test_vectors :
    sanitize_filename "" = "untitled" ∧
    sanitize_filename "A/B:C" = "A_B_C" ∧
    (sanitize_filename (String.mk (List.replicate 300 'a'))).length = 150 ∧
    sanitize_filename "<>:\"/\\|?*" = "_________" ∧
    sanitize_filename " " = "untitled_chapter" := by
  refine ⟨by decide, by decide, ?_, by decide, by decide⟩
  set_option maxRecDepth 8192 in decide

/-- C3: the range resolver gives the entry at position `i` the end page
`entries[i+1].start_page - 1` when a next entry exists, and
`total_pages - 1` when it is the last entry. -/
theorem endPageAt_spec (entries : List ChapterStart) (num_pages_total : Int) (i : Nat) :
    (∀ h : i + 1 < entries.length,
      endPageAt entries num_pages_total i =
        ((entries.get ⟨i + 1, h⟩).start_page : Int) - 1) ∧
    (entries.length ≤ i + 1 →
      endPageAt entries num_pages_total i = num_pages_total - 1) := by
  constructor
  · intro h
    simp [endPageAt, List.getElem?_eq_getElem h]
  · intro h
    simp [endPageAt, List.getElem?_eq_none h]

/-- Witness for `endPageAt_spec` on a concrete two-entry list. -/
theorem endPageAt_spec_witness :
    endPageAt [⟨"a", 0, 0⟩, ⟨"b", 3, 0⟩] 10 0 = 2 ∧
    endPageAt [⟨"a", 0, 0⟩, ⟨"b", 3, 0⟩] 10 1 = 9 := by
  constructor
  · have h := (endPageAt_spec [⟨"a", 0, 0⟩, ⟨"b", 3, 0⟩] 10 0).1 (by decide)
    rw [h]
    decide
  · have h := (endPageAt_spec [⟨"a", 0, 0⟩, ⟨"b", 3, 0⟩] 10 1).2 (by decide)
    rw [h]
    decide

/-- Helper for C10: once the current depth exceeds the target level the
walker can never recurse (the guard `current_level < target_level` fails)
nor emit (the guard `current_level == target_level` fails). -/
theorem find_chapter_bookmarks_eq_nil_of_lt (items : List OutlineNode)
    (target current : Int) (h : target < current) :
    find_chapter_bookmarks items target current = [] := by
  revert h
  induction items, target, current using find_chapter_bookmarks.induct with
  | case1 t cur =>
    intro h
    simp [find_chapter_bookmarks]
  | case2 sub rest t cur ih_sub ih_rest =>
    intro h
    rw [find_chapter_bookmarks.eq_2, if_neg (by omega : ¬ cur < t), ih_rest h,
      List.nil_append]
  | case3 title tgt rest t cur ih_rest =>
    intro h
    cases tgt with
    | some page_num =>
      rw [find_chapter_bookmarks.eq_3, if_neg (by omega : ¬ cur = t), ih_rest h,
        List.nil_append]
    | none =>
      rw [find_chapter_bookmarks.eq_4, if_neg (by omega : ¬ cur = t), ih_rest h,
        List.nil_append]

/-- C10: for a negative target level the walker returns nothing, and the
run takes the diagnostic path that reports the levels that do contain
bookmarks. -/
theorem find_chapter_bookmarks_neg_level (outline : List OutlineNode)
    (target num_pages_total : Int) (pageOk : Int → Bool) (h : target < 0) :
    find_chapter_bookmarks outline target 0 = [] ∧
    extract_chapters_from_pdf outline target num_pages_total pageOk =
      ExtractResult.noBookmarksAtLevel (get_available_bookmark_levels outline 0) := by
  have h1 := find_chapter_bookmarks_eq_nil_of_lt outline target 0 h
  refine ⟨h1, ?_⟩
  simp [extract_chapters_from_pdf, h1]

/-- Witness for `find_chapter_bookmarks_neg_level` at level `-1`. -/
theorem find_chapter_bookmarks_neg_level_witness :
    find_chapter_bookmarks [OutlineNode.dest "A" (some 0)] (-1) 0 = [] ∧
    extract_chapters_from_pdf [OutlineNode.dest "A" (some 0)] (-1) 5 (fun _ => true) =
      ExtractResult.noBookmarksAtLevel
        (get_available_bookmark_levels [OutlineNode.dest "A" (some 0)] 0) :=
  find_chapter_bookmarks_neg_level _ _ _ _ (by decide)

/-- C9: sort-and-dedup of a non-empty list is non-empty (the head of the
sorted list is always kept), so the run can never reach the defensive
`noValidAfterFilter` branch. -/
theorem sortDedup_ne_nil_and_filter_branch_unreachable :
    (∀ l : List ChapterStart, l ≠ [] → sortDedup l ≠ []) ∧
    (∀ (outline : List OutlineNode) (chapter_level num_pages_total : Int)
      (pageOk : Int → Bool),
      extract_chapters_from_pdf outline chapter_level num_pages_total pageOk ≠
        ExtractResult.noValidAfterFilter) := by
  have h1 : ∀ l : List ChapterStart, l ≠ [] → sortDedup l ≠ [] := by
    intro l hl
    have hperm := List.perm_insertionSort chapterLE l
    have hlen : (sortChapterStarts l).length = l.length := hperm.length_eq
    rw [sortDedup]
    cases hs : sortChapterStarts l with
    | nil =>
      rw [hs] at hlen
      exact absurd (List.length_eq_zero.mp hlen.symm) hl
    | cons c rest =>
      simp [dedupChapterStarts]
  refine ⟨h1, ?_⟩
  intro outline chapter_level num_pages_total pageOk
  by_cases hc : find_chapter_bookmarks outline chapter_level 0 = []
  · simp [extract_chapters_from_pdf, hc]
  · have hne := h1 _ hc
    rw [sortDedup] at hne
    simp [extract_chapters_from_pdf, hc, hne]

/-- Witness for `sortDedup_ne_nil_and_filter_branch_unreachable` on a
singleton list and a concrete run. -/
theorem sortDedup_ne_nil_witness :
    sortDedup [(⟨"A", 0, 0⟩ : ChapterStart)] ≠ [] ∧
    extract_chapters_from_pdf [] 0 1 (fun _ => true) ≠
      ExtractResult.noValidAfterFilter :=
  ⟨sortDedup_ne_nil_and_filter_branch_unreachable.1 _ (by decide),
    sortDedup_ne_nil_and_filter_branch_unreachable.2 _ _ _ _⟩

/-- Helper for C5 at an arbitrary starting depth: every collected record
has `level = target_level` and stems from a resolvable Destination at
relative depth `target_level - current_level`. -/
theorem find_chapter_bookmarks_mem_aux (items : List OutlineNode) (target current : Int) :
    ∀ c ∈ find_chapter_bookmarks items target current,
      c.level = target ∧
        specResolvableDestAt items (target - current) c.title c.start_page = true := by
  induction items, target, current using find_chapter_bookmarks.induct with
  | case1 t cur =>
    intro c hc
    rw [find_chapter_bookmarks.eq_1] at hc
    cases hc
  | case2 sub rest t cur ih_sub ih_rest =>
    intro c hc
    rw [find_chapter_bookmarks.eq_2] at hc
    rcases List.mem_append.mp hc with hmem | hmem
    · by_cases hlt : cur < t
      · rw [if_pos hlt] at hmem
        obtain ⟨h1, h2⟩ := ih_sub c hmem
        refine ⟨h1, ?_⟩
        have he : t - (cur + 1) = t - cur - 1 := by ring
        rw [specResolvableDestAt.eq_2, ← he, h2, Bool.true_or]
      · rw [if_neg hlt] at hmem
        cases hmem
    · obtain ⟨h1, h2⟩ := ih_rest c hmem
      exact ⟨h1, by rw [specResolvableDestAt.eq_2, h2, Bool.or_true]⟩
  | case3 title tgt rest t cur ih_rest =>
    intro c hc
    cases tgt with
    | some page_num =>
      rw [find_chapter_bookmarks.eq_3] at hc
      rcases List.mem_append.mp hc with hmem | hmem
      · by_cases heq : cur = t
        · subst heq
          rw [if_pos rfl] at hmem
          have hceq : c = ChapterStart.mk title page_num cur := List.mem_singleton.mp hmem
          subst hceq
          refine ⟨rfl, ?_⟩
          rw [specResolvableDestAt.eq_3]
          simp
        · rw [if_neg heq] at hmem
          cases hmem
      · obtain ⟨h1, h2⟩ := ih_rest c hmem
        exact ⟨h1, by rw [specResolvableDestAt.eq_3, h2, Bool.or_true]⟩
    | none =>
      rw [find_chapter_bookmarks.eq_4] at hc
      rcases List.mem_append.mp hc with hmem | hmem
      · have : c ∈ ([] : List ChapterStart) := by
          cases Decidable.em (cur = t) with
          | inl h => rwa [if_pos h] at hmem
          | inr h => rwa [if_neg h] at hmem
        cases this
      · obtain ⟨h1, h2⟩ := ih_rest c hmem
        exact ⟨h1, by rw [specResolvableDestAt.eq_3, h2, Bool.or_true]⟩

/-- C5: every record the walker returns carries `level = target_level`
and originates in a resolvable Destination at depth exactly
`target_level`; Groups and Destinations at other depths produce
nothing. -/
theorem find_chapter_bookmarks_level_eq (items : List OutlineNode) (target : Int)
    (c : ChapterStart) (hc : c ∈ find_chapter_bookmarks items target 0) :
    c.level = target ∧
      specResolvableDestAt items target c.title c.start_page = true := by
  have h := find_chapter_bookmarks_mem_aux items target 0 c hc
  rwa [sub_zero] at h

/-- Witness for `find_chapter_bookmarks_level_eq` on a two-level tree. -/
theorem find_chapter_bookmarks_level_eq_witness :
    (ChapterStart.mk "B" 3 1).level = 1 ∧
      specResolvableDestAt
        [OutlineNode.dest "A" (some 2), OutlineNode.group [OutlineNode.dest "B" (some 3)]]
        1 "B" 3 = true :=
  find_chapter_bookmarks_level_eq
    [OutlineNode.dest "A" (some 2), OutlineNode.group [OutlineNode.dest "B" (some 3)]]
    1 (ChapterStart.mk "B" 3 1) (by simp [find_chapter_bookmarks])

/-- Helper for C7 at an arbitrary starting depth. -/
theorem mem_get_available_aux (items : List OutlineNode) (current : Int) :
    ∀ d : Int, d ∈ get_available_bookmark_levels items current ↔
      specHasDestAtDepth items (d - current) = true := by
  induction items, current using get_available_bookmark_levels.induct with
  | case1 cur =>
    intro d
    rw [get_available_bookmark_levels.eq_1, specHasDestAtDepth.eq_1]
    simp
  | case2 sub rest cur ih_sub ih_rest =>
    intro d
    rw [get_available_bookmark_levels.eq_2, specHasDestAtDepth.eq_2, Finset.mem_union,
      ih_sub d, ih_rest d, Bool.or_eq_true]
    have he : d - (cur + 1) = d - cur - 1 := by ring
    rw [he]
  | case3 title tgt rest cur ih_rest =>
    intro d
    rw [get_available_bookmark_levels.eq_3, specHasDestAtDepth.eq_3, Finset.mem_insert,
      ih_rest d, Bool.or_eq_true, beq_iff_eq, sub_eq_zero]

/-- C7: a depth is reported by `get_available_bookmark_levels` iff some
Destination leaf occurs at exactly that Group-nesting depth. -/
theorem get_available_bookmark_levels_spec (items : List OutlineNode) (d : Int) :
    d ∈ get_available_bookmark_levels items 0 ↔ specHasDestAtDepth items d = true := by
  have h := mem_get_available_aux items 0 d
  rwa [sub_zero] at h

/-- Stability of the sort stage: for every page number, the entries whose
`start_page` equals it appear in the sorted list exactly as they appeared
in the input — original relative order among equal-page entries is
preserved. -/
theorem filter_sortChapterStarts (l : List ChapterStart) (p : Nat) :
    (sortChapterStarts l).filter (fun c => c.start_page == p) =
      l.filter (fun c => c.start_page == p) := by
  have hself : (l.filter (fun c => c.start_page == p)).filter
      (fun c => c.start_page == p) = l.filter (fun c => c.start_page == p) :=
    List.filter_eq_self.mpr (fun a ha => (List.mem_filter.mp ha).2)
  have hpair : (l.filter (fun c => c.start_page == p)).Pairwise chapterLE := by
    refine List.pairwise_of_forall_mem_list ?_
    intro a ha b hb
    have ha2 : a.start_page = p := by simpa using (List.mem_filter.mp ha).2
    have hb2 : b.start_page = p := by simpa using (List.mem_filter.mp hb).2
    show a.start_page ≤ b.start_page
    omega
  have h1 : (l.filter (fun c => c.start_page == p)).Sublist (sortChapterStarts l) :=
    List.sublist_insertionSort hpair (List.filter_sublist l)
  have h2 : (l.filter (fun c => c.start_page == p)).Sublist
      ((sortChapterStarts l).filter (fun c => c.start_page == p)) := by
    have := h1.filter (fun c => c.start_page == p)
    rwa [hself] at this
  have hlen : ((sortChapterStarts l).filter (fun c => c.start_page == p)).length =
      (l.filter (fun c => c.start_page == p)).length :=
    ((List.perm_insertionSort chapterLE l).filter _).length_eq
  exact (h2.eq_of_length hlen.symm).symm

/-- The dedup stage keeps, for every page number not yet seen, exactly the
first record of the scan with that `start_page`. -/
theorem dedupChapterStarts_filter (s : List ChapterStart) (seen : List Nat) (p : Nat) :
    (dedupChapterStarts s seen).filter (fun c => c.start_page == p) =
      if p ∈ seen then [] else (s.filter (fun c => c.start_page == p)).take 1 := by
  induction s generalizing seen with
  | nil => simp [dedupChapterStarts]
  | cons c rest ih =>
    by_cases hseen : c.start_page ∈ seen
    · simp only [dedupChapterStarts, if_pos hseen]
      rw [ih seen]
      by_cases hp : p ∈ seen
      · rw [if_pos hp, if_pos hp]
      · have hne : (c.start_page == p) = false := by
          simp only [beq_eq_false_iff_ne]
          exact fun h => hp (h ▸ hseen)
        rw [if_neg hp, if_neg hp, List.filter_cons, hne]
        simp
    · simp only [dedupChapterStarts, if_neg hseen]
      rw [List.filter_cons]
      by_cases hcp : c.start_page = p
      · subst hcp
        rw [ih (c.start_page :: seen),
          if_pos (List.mem_cons_self c.start_page seen), if_neg hseen]
        simp [List.filter_cons]
      · have hf : (c.start_page == p) = false := by
          simp only [beq_eq_false_iff_ne]
          exact hcp
        have hpc : ¬ p = c.start_page := fun h => hcp h.symm
        rw [hf, ih (c.start_page :: seen), List.filter_cons, hf]
        simp only [List.mem_cons, hpc, false_or]
        simp

/-- The dedup stage only removes entries: its output is a sublist of its
input. -/
theorem dedupChapterStarts_sublist (s : List ChapterStart) (seen : List Nat) :
    (dedupChapterStarts s seen).Sublist s := by
  induction s generalizing seen with
  | nil => simp [dedupChapterStarts]
  | cons c rest ih =>
    by_cases h : c.start_page ∈ seen
    · simp only [dedupChapterStarts, if_pos h]
      exact (ih seen).trans (List.sublist_cons_self c rest)
    · simp only [dedupChapterStarts, if_neg h]
      exact List.Sublist.cons₂ c (ih _)

/-- No surviving record carries a page that was already in `seen_pages`. -/
theorem mem_dedupChapterStarts_not_seen (s : List ChapterStart) (seen : List Nat) :
    ∀ a ∈ dedupChapterStarts s seen, a.start_page ∉ seen := by
  induction s generalizing seen with
  | nil =>
    intro a ha
    simp [dedupChapterStarts] at ha
  | cons c rest ih =>
    intro a ha
    by_cases h : c.start_page ∈ seen
    · simp only [dedupChapterStarts, if_pos h] at ha
      exact ih seen a ha
    · simp only [dedupChapterStarts, if_neg h] at ha
      rcases List.mem_cons.mp ha with rfl | hmem
      · exact h
      · have h2 := ih _ a hmem
        exact fun hs => h2 (List.mem_cons_of_mem _ hs)

/-- Distinct survivors carry distinct start pages. -/
theorem dedupChapterStarts_pairwise_ne (s : List ChapterStart) (seen : List Nat) :
    (dedupChapterStarts s seen).Pairwise (fun a b => a.start_page ≠ b.start_page) := by
  induction s generalizing seen with
  | nil => simp [dedupChapterStarts]
  | cons c rest ih =>
    by_cases h : c.start_page ∈ seen
    · simp only [dedupChapterStarts, if_pos h]
      exact ih seen
    · simp only [dedupChapterStarts, if_neg h]
      refine List.Pairwise.cons ?_ (ih _)
      intro b hb
      have h2 := mem_dedupChapterStarts_not_seen rest (c.start_page :: seen) b hb
      intro he
      apply h2
      rw [← he]
      exact List.mem_cons_self _ _

/-- C4: the sort-and-dedup stage sorts ascending by `start_page` with a
stable tie-break (equal-page entries keep their input order), keeps only
the first record seen for each distinct `start_page`, only drops entries,
and leaves the surviving `start_page` values strictly increasing. -/
theorem sortDedup_spec (l : List ChapterStart) :
    List.Pairwise (fun a b => a.start_page ≤ b.start_page) (sortChapterStarts l) ∧
    (∀ p : Nat, (sortChapterStarts l).filter (fun c => c.start_page == p) =
      l.filter (fun c => c.start_page == p)) ∧
    (∀ p : Nat, (sortDedup l).filter (fun c => c.start_page == p) =
      ((sortChapterStarts l).filter (fun c => c.start_page == p)).take 1) ∧
    (sortDedup l).Sublist (sortChapterStarts l) ∧
    List.Pairwise (fun a b => a.start_page < b.start_page) (sortDedup l) := by
  have hsorted : (sortChapterStarts l).Pairwise chapterLE :=
    List.sorted_insertionSort chapterLE l
  have hsub : (sortDedup l).Sublist (sortChapterStarts l) :=
    dedupChapterStarts_sublist (sortChapterStarts l) []
  refine ⟨hsorted, fun p => filter_sortChapterStarts l p, ?_, hsub, ?_⟩
  · intro p
    have h := dedupChapterStarts_filter (sortChapterStarts l) [] p
    simpa [sortDedup] using h
  · have hle : (sortDedup l).Pairwise chapterLE := hsorted.sublist hsub
    have hne : (sortDedup l).Pairwise (fun a b => a.start_page ≠ b.start_page) :=
      dedupChapterStarts_pairwise_ne (sortChapterStarts l) []
    have hand := hle.and hne
    refine hand.imp ?_
    intro a b hab
    exact lt_of_le_of_ne hab.1 hab.2

/-- A file comes out of the emission loop iff some processed position
produced it. -/
theorem emitLoop_files_mem (cs : List ChapterStart) (total : Int) (ok : Int → Bool)
    (pairs : List (Nat × ChapterStart)) (f : EmittedFile) :
    f ∈ (emitLoop cs total ok pairs).1 ↔
      ∃ pr ∈ pairs, (processChapter cs total ok pr.1 pr.2).1 = some f := by
  induction pairs with
  | nil => simp [emitLoop]
  | cons pr0 rest ih =>
    obtain ⟨i, c⟩ := pr0
    simp only [emitLoop]
    constructor
    · intro h
      rcases List.mem_append.mp h with h | h
      · exact ⟨(i, c), List.mem_cons_self _ _,
          Option.mem_def.mp (Option.mem_toList.mp h)⟩
      · obtain ⟨pr, hmem, hp⟩ := ih.mp h
        exact ⟨pr, List.mem_cons_of_mem _ hmem, hp⟩
    · rintro ⟨pr, hmem, hp⟩
      rcases List.mem_cons.mp hmem with heq | hmem2
      · subst heq
        exact List.mem_append.mpr (Or.inl (Option.mem_toList.mpr (Option.mem_def.mpr hp)))
      · exact List.mem_append.mpr (Or.inr (ih.mpr ⟨pr, hmem2, hp⟩))

/-- A warning comes out of the emission loop iff some processed position
logged it. -/
theorem emitLoop_warnings_mem (cs : List ChapterStart) (total : Int) (ok : Int → Bool)
    (pairs : List (Nat × ChapterStart)) (w : EmitWarning) :
    w ∈ (emitLoop cs total ok pairs).2 ↔
      ∃ pr ∈ pairs, w ∈ (processChapter cs total ok pr.1 pr.2).2 := by
  induction pairs with
  | nil => simp [emitLoop]
  | cons pr0 rest ih =>
    obtain ⟨i, c⟩ := pr0
    simp only [emitLoop]
    constructor
    · intro h
      rcases List.mem_append.mp h with h | h
      · exact ⟨(i, c), List.mem_cons_self _ _, h⟩
      · obtain ⟨pr, hmem, hp⟩ := ih.mp h
        exact ⟨pr, List.mem_cons_of_mem _ hmem, hp⟩
    · rintro ⟨pr, hmem, hp⟩
      rcases List.mem_cons.mp hmem with heq | hmem2
      · subst heq
        exact List.mem_append.mpr (Or.inl hp)
      · exact List.mem_append.mpr (Or.inr (ih.mpr ⟨pr, hmem2, hp⟩))

/-- The warnings of one iteration when the computed span is empty. -/
theorem processChapter_emptySpan (cs : List ChapterStart) (total : Int) (ok : Int → Bool)
    (i : Nat) (c : ChapterStart)
    (h1 : (c.start_page : Int) > endPageAt cs total i) :
    processChapter cs total ok i c =
      (none, [EmitWarning.emptySpan c.title c.start_page (endPageAt cs total i)]) := by
  unfold processChapter
  dsimp only
  rw [if_pos h1]

/-- The warnings of one iteration when the span is non-empty but out of
bounds. -/
theorem processChapter_invalidRange (cs : List ChapterStart) (total : Int) (ok : Int → Bool)
    (i : Nat) (c : ChapterStart)
    (h1 : ¬ (c.start_page : Int) > endPageAt cs total i)
    (h2 : ¬ (0 ≤ (c.start_page : Int) ∧ (c.start_page : Int) < total ∧
      0 ≤ endPageAt cs total i ∧ endPageAt cs total i < total)) :
    processChapter cs total ok i c =
      (none, [EmitWarning.invalidRange c.title c.start_page (endPageAt cs total i)]) := by
  unfold processChapter
  dsimp only
  rw [if_neg h1, if_pos h2]

/-- Exactly when one iteration of the emission loop produces a file: the
span is non-empty and in bounds, at least one page copied, and the file
carries the position-based numeric prefix and the surviving pages. -/
theorem processChapter_some_iff (cs : List ChapterStart) (total : Int) (ok : Int → Bool)
    (i : Nat) (c : ChapterStart) (f : EmittedFile) :
    (processChapter cs total ok i c).1 = some f ↔
      ((c.start_page : Int) ≤ endPageAt cs total i ∧
        0 ≤ (c.start_page : Int) ∧ (c.start_page : Int) < total ∧
        0 ≤ endPageAt cs total i ∧ endPageAt cs total i < total ∧
        (pageIndexRange c.start_page (endPageAt cs total i)).filter ok ≠ [] ∧
        f = ⟨i + 1, output_filename i c.title,
          (pageIndexRange c.start_page (endPageAt cs total i)).filter ok⟩) := by
  by_cases h1 : (c.start_page : Int) > endPageAt cs total i
  · rw [processChapter_emptySpan cs total ok i c h1]
    constructor
    · intro h
      exact absurd h (by simp)
    · rintro ⟨hle, -⟩
      omega
  · by_cases h2 : 0 ≤ (c.start_page : Int) ∧ (c.start_page : Int) < total ∧
        0 ≤ endPageAt cs total i ∧ endPageAt cs total i < total
    · unfold processChapter
      dsimp only
      rw [if_neg h1, if_neg (fun hn => hn h2)]
      by_cases h3 : (pageIndexRange c.start_page (endPageAt cs total i)).filter ok = []
      · rw [if_pos h3]
        constructor
        · intro h
          exact absurd h (by simp)
        · rintro ⟨-, -, -, -, -, hne, -⟩
          exact absurd h3 hne
      · rw [if_neg h3]
        show some _ = some f ↔ _
        rw [Option.some.injEq]
        constructor
        · intro h
          exact ⟨by omega, h2.1, h2.2.1, h2.2.2.1, h2.2.2.2, h3, h.symm⟩
        · rintro ⟨-, -, -, -, -, -, rfl⟩
          rfl
    · rw [processChapter_invalidRange cs total ok i c h1 h2]
      constructor
      · intro h
        exact absurd h (by simp)
      · rintro ⟨-, hb1, hb2, hb3, hb4, -⟩
        exact absurd ⟨hb1, hb2, hb3, hb4⟩ h2

/-- The warnings of one iteration on the copy path: one per failed page,
plus the empty-chapter warning when no page survived. -/
theorem processChapter_copy_warnings (cs : List ChapterStart) (total : Int) (ok : Int → Bool)
    (i : Nat) (c : ChapterStart)
    (h1 : ¬ (c.start_page : Int) > endPageAt cs total i)
    (h2 : 0 ≤ (c.start_page : Int) ∧ (c.start_page : Int) < total ∧
      0 ≤ endPageAt cs total i ∧ endPageAt cs total i < total) :
    (∀ p ∈ pageIndexRange c.start_page (endPageAt cs total i), ok p = false →
      EmitWarning.pageError c.title p ∈ (processChapter cs total ok i c).2) ∧
    ((pageIndexRange c.start_page (endPageAt cs total i)).filter ok = [] →
      EmitWarning.emptyChapter c.title ∈ (processChapter cs total ok i c).2) := by
  unfold processChapter
  dsimp only
  rw [if_neg h1, if_neg (by exact fun hn => hn h2)]
  constructor
  · intro p hp hfail
    have hmemf : p ∈ (pageIndexRange c.start_page (endPageAt cs total i)).filter
        (fun q => ! ok q) :=
      List.mem_filter.mpr ⟨hp, by rw [hfail]; rfl⟩
    have hmem : EmitWarning.pageError c.title p ∈
        ((pageIndexRange c.start_page (endPageAt cs total i)).filter
          (fun q => ! ok q)).map (EmitWarning.pageError c.title) :=
      List.mem_map.mpr ⟨p, hmemf, rfl⟩
    by_cases h3 : (pageIndexRange c.start_page (endPageAt cs total i)).filter ok = []
    · rw [if_pos h3]
      exact List.mem_append.mpr (Or.inl hmem)
    · rw [if_neg h3]
      exact hmem
  · intro h3
    rw [if_pos h3]
    exact List.mem_append.mpr (Or.inr (List.mem_singleton.mpr rfl))

/-- C6: the chapter at position `i` is emitted iff its computed range is
a non-empty in-bounds span with at least one copyable page — in
particular a single-page chapter (`start_page = end_page`) is accepted —
and an empty or out-of-bounds span is skipped with the matching warning;
the characterization holds at every position independently, so a skip
never aborts the remaining chapters. -/
theorem emit_range_validation (entries : List ChapterStart) (total : Int) (ok : Int → Bool)
    (i : Nat) (c : ChapterStart) (hc : entries[i]? = some c) :
    ((∃ f ∈ (emitChapters entries total ok).1, f.idx = i + 1) ↔
      ((c.start_page : Int) ≤ endPageAt entries total i ∧
        0 ≤ (c.start_page : Int) ∧ (c.start_page : Int) < total ∧
        0 ≤ endPageAt entries total i ∧ endPageAt entries total i < total ∧
        (pageIndexRange c.start_page (endPageAt entries total i)).filter ok ≠ [])) ∧
    ((c.start_page : Int) > endPageAt entries total i →
      EmitWarning.emptySpan c.title c.start_page (endPageAt entries total i) ∈
        (emitChapters entries total ok).2) ∧
    (¬ (c.start_page : Int) > endPageAt entries total i ∧
        ¬ (0 ≤ (c.start_page : Int) ∧ (c.start_page : Int) < total ∧
          0 ≤ endPageAt entries total i ∧ endPageAt entries total i < total) →
      EmitWarning.invalidRange c.title c.start_page (endPageAt entries total i) ∈
        (emitChapters entries total ok).2) := by
  refine ⟨⟨?_, ?_⟩, ?_, ?_⟩
  · rintro ⟨f, hf, hidx⟩
    simp only [emitChapters] at hf
    obtain ⟨pr, hpr, hp⟩ := (emitLoop_files_mem entries total ok entries.enum f).mp hf
    obtain ⟨hle, hb1, hb2, hb3, hb4, hne, hfeq⟩ :=
      (processChapter_some_iff entries total ok pr.1 pr.2 f).mp hp
    have hpr2 : entries[pr.1]? = some pr.2 := List.mem_enum_iff_getElem?.mp hpr
    have hidx2 : pr.1 = i := by
      have hfi : f.idx = pr.1 + 1 := by rw [hfeq]
      omega
    rw [hidx2] at hpr2
    have hceq : pr.2 = c := Option.some.inj (hpr2.symm.trans hc)
    simp only [hidx2, hceq] at hle hb1 hb2 hb3 hb4 hne
    exact ⟨hle, hb1, hb2, hb3, hb4, hne⟩
  · rintro ⟨hle, hb1, hb2, hb3, hb4, hne⟩
    refine ⟨⟨i + 1, output_filename i c.title,
      (pageIndexRange c.start_page (endPageAt entries total i)).filter ok⟩, ?_, rfl⟩
    simp only [emitChapters]
    refine (emitLoop_files_mem entries total ok entries.enum _).mpr ?_
    exact ⟨(i, c), List.mem_enum_iff_getElem?.mpr hc,
      (processChapter_some_iff entries total ok i c _).mpr
        ⟨hle, hb1, hb2, hb3, hb4, hne, rfl⟩⟩
  · intro h1
    simp only [emitChapters]
    refine (emitLoop_warnings_mem entries total ok entries.enum _).mpr ?_
    refine ⟨(i, c), List.mem_enum_iff_getElem?.mpr hc, ?_⟩
    rw [processChapter_emptySpan entries total ok i c h1]
    exact List.mem_singleton.mpr rfl
  · rintro ⟨h1, h2⟩
    simp only [emitChapters]
    refine (emitLoop_warnings_mem entries total ok entries.enum _).mpr ?_
    refine ⟨(i, c), List.mem_enum_iff_getElem?.mpr hc, ?_⟩
    rw [processChapter_invalidRange entries total ok i c h1 h2]
    exact List.mem_singleton.mpr rfl

/-- Witness for `emit_range_validation`: a single-page chapter (pages
4..4 of a 5-page document) is accepted and emitted. -/
theorem emit_range_validation_witness :
    ∃ f ∈ (emitChapters [⟨"A", 4, 0⟩] 5 (fun _ => true)).1, f.idx = 0 + 1 := by
  have h := emit_range_validation [⟨"A", 4, 0⟩] 5 (fun _ => true) 0 ⟨"A", 4, 0⟩ rfl
  exact h.1.mpr (by decide)

/-- C8: for a valid range, the emitted file holds exactly the pages that
copied successfully (a failed page is skipped, the rest still appended),
every failed page is warned about, and when every page failed the chapter
is skipped with a warning and no file carries its index. -/
theorem emit_page_copy_failures (entries : List ChapterStart) (total : Int) (ok : Int → Bool)
    (i : Nat) (c : ChapterStart) (hc : entries[i]? = some c)
    (h1 : (c.start_page : Int) ≤ endPageAt entries total i)
    (h2 : 0 ≤ (c.start_page : Int) ∧ (c.start_page : Int) < total ∧
      0 ≤ endPageAt entries total i ∧ endPageAt entries total i < total) :
    ((pageIndexRange c.start_page (endPageAt entries total i)).filter ok ≠ [] →
      ∃ f ∈ (emitChapters entries total ok).1, f.idx = i + 1 ∧
        f.pages = (pageIndexRange c.start_page (endPageAt entries total i)).filter ok) ∧
    (∀ p ∈ pageIndexRange c.start_page (endPageAt entries total i), ok p = false →
      EmitWarning.pageError c.title p ∈ (emitChapters entries total ok).2) ∧
    ((pageIndexRange c.start_page (endPageAt entries total i)).filter ok = [] →
      (∀ f ∈ (emitChapters entries total ok).1, f.idx ≠ i + 1) ∧
      EmitWarning.emptyChapter c.title ∈ (emitChapters entries total ok).2) := by
  have hng : ¬ (c.start_page : Int) > endPageAt entries total i := by omega
  refine ⟨?_, ?_, ?_⟩
  · intro hne
    refine ⟨⟨i + 1, output_filename i c.title,
      (pageIndexRange c.start_page (endPageAt entries total i)).filter ok⟩, ?_, rfl, rfl⟩
    simp only [emitChapters]
    refine (emitLoop_files_mem entries total ok entries.enum _).mpr ?_
    exact ⟨(i, c), List.mem_enum_iff_getElem?.mpr hc,
      (processChapter_some_iff entries total ok i c _).mpr
        ⟨h1, h2.1, h2.2.1, h2.2.2.1, h2.2.2.2, hne, rfl⟩⟩
  · intro p hp hfail
    simp only [emitChapters]
    refine (emitLoop_warnings_mem entries total ok entries.enum _).mpr ?_
    exact ⟨(i, c), List.mem_enum_iff_getElem?.mpr hc,
      (processChapter_copy_warnings entries total ok i c hng h2).1 p hp hfail⟩
  · intro hempty
    constructor
    · rintro f hf hidx
      simp only [emitChapters] at hf
      obtain ⟨pr, hpr, hp⟩ := (emitLoop_files_mem entries total ok entries.enum f).mp hf
      obtain ⟨-, -, -, -, -, hne, hfeq⟩ :=
        (processChapter_some_iff entries total ok pr.1 pr.2 f).mp hp
      have hpr2 : entries[pr.1]? = some pr.2 := List.mem_enum_iff_getElem?.mp hpr
      have hidx2 : pr.1 = i := by
        have hfi : f.idx = pr.1 + 1 := by rw [hfeq]
        omega
      rw [hidx2] at hpr2
      have hceq : pr.2 = c := Option.some.inj (hpr2.symm.trans hc)
      rw [hidx2, hceq] at hne
      exact hne hempty
    · simp only [emitChapters]
      refine (emitLoop_warnings_mem entries total ok entries.enum _).mpr ?_
      exact ⟨(i, c), List.mem_enum_iff_getElem?.mpr hc,
        (processChapter_copy_warnings entries total ok i c hng h2).2 hempty⟩

/-- Witness for `emit_page_copy_failures`: chapter "A" covers only page
0, copying page 0 fails, so no file gets index 1 and the empty-chapter
warning is logged. -/
theorem emit_page_copy_failures_witness :
    (∀ f ∈ (emitChapters [⟨"A", 0, 0⟩, ⟨"B", 1, 0⟩] 2 (fun p => decide (p ≠ 0))).1,
      f.idx ≠ 0 + 1) ∧
    EmitWarning.emptyChapter "A" ∈
      (emitChapters [⟨"A", 0, 0⟩, ⟨"B", 1, 0⟩] 2 (fun p => decide (p ≠ 0))).2 := by
  have h := emit_page_copy_failures [⟨"A", 0, 0⟩, ⟨"B", 1, 0⟩] 2
    (fun p => decide (p ≠ 0)) 0 ⟨"A", 0, 0⟩ rfl (by decide) (by decide)
  exact h.2.2 (by decide)

/-- C1 (amended): every emitted file of a run is named
`output_filename i title`, i.e. `"{i+1:03d}_{sanitized_title}.pdf"`,
where `i` is the chapter's 0-based position in the sorted, deduplicated
chapter-start list — chapters skipped by validation or page-copy failures
still advance the index. -/
theorem emitted_filename_index (outline : List OutlineNode) (chapter_level total : Int)
    (ok : Int → Bool) (files : List EmittedFile) (warnings : List EmitWarning)
    (h : extract_chapters_from_pdf outline chapter_level total ok =
      ExtractResult.extracted files warnings) :
    ∀ f ∈ files, ∃ i c,
      (sortDedup (find_chapter_bookmarks outline chapter_level 0))[i]? = some c ∧
      f.idx = i + 1 ∧ f.filename = output_filename i c.title := by
  have hfiles : files =
      (emitChapters (sortDedup (find_chapter_bookmarks outline chapter_level 0)) total ok).1 := by
    unfold extract_chapters_from_pdf at h
    dsimp only at h
    by_cases hc : find_chapter_bookmarks outline chapter_level 0 = []
    · rw [if_pos hc] at h
      exact absurd h (by simp)
    · rw [if_neg hc] at h
      by_cases hu : dedupChapterStarts
          (sortChapterStarts (find_chapter_bookmarks outline chapter_level 0)) [] = []
      · rw [if_pos hu] at h
        exact absurd h (by simp)
      · rw [if_neg hu] at h
        injection h with h1 h2
        rw [sortDedup]
        exact h1.symm
  intro f hf
  rw [hfiles] at hf
  simp only [emitChapters] at hf
  obtain ⟨pr, hpr, hp⟩ := (emitLoop_files_mem _ total ok _ f).mp hf
  obtain ⟨-, -, -, -, -, -, hfeq⟩ := (processChapter_some_iff _ total ok pr.1 pr.2 f).mp hp
  refine ⟨pr.1, pr.2, List.mem_enum_iff_getElem?.mp hpr, ?_, ?_⟩
  · rw [hfeq]
  · rw [hfeq]

/-- C1 counterexample: a two-chapter run in which chapter "A" (position
0) is skipped because its only page fails to copy.  The sole emitted
chapter "B" — the first chapter in final emission order — is written as
`"002_B.pdf"`, not `"001_B.pdf"`: the skipped chapter advanced the
numeric prefix, contradicting the claim that the index counts only
valid, non-skipped chapters. -/
theorem emitted_filename_index_counterexample :
    extract_chapters_from_pdf
        [OutlineNode.dest "A" (some 0), OutlineNode.dest "B" (some 1)] 0 2
        (fun p => decide (p ≠ 0)) =
      ExtractResult.extracted [⟨2, "002_B.pdf", [1]⟩]
        [EmitWarning.pageError "A" 0, EmitWarning.emptyChapter "A"] ∧
    "002_B.pdf" ≠ output_filename 0 "B" := by
  constructor
  · have hfind : find_chapter_bookmarks
        [OutlineNode.dest "A" (some 0), OutlineNode.dest "B" (some 1)] 0 0 =
        [⟨"A", 0, 0⟩, ⟨"B", 1, 0⟩] := by
      simp [find_chapter_bookmarks]
    rw [extract_chapters_from_pdf, hfind]
    decide
  · decide

/-- Witness for `emitted_filename_index` on the run of the
counterexample input: the file `"002_B.pdf"` stems from position 1 of
the deduplicated list. -/
theorem emitted_filename_index_witness :
    ∃ i c,
      (sortDedup (find_chapter_bookmarks
        [OutlineNode.dest "A" (some 0), OutlineNode.dest "B" (some 1)] 0 0))[i]? = some c ∧
      (⟨2, "002_B.pdf", [1]⟩ : EmittedFile).idx = i + 1 ∧
      (⟨2, "002_B.pdf", [1]⟩ : EmittedFile).filename = output_filename i c.title := by
  have hrun : extract_chapters_from_pdf
      [OutlineNode.dest "A" (some 0), OutlineNode.dest "B" (some 1)] 0 2
      (fun p => decide (p ≠ 0)) =
      ExtractResult.extracted [⟨2, "002_B.pdf", [1]⟩]
        [EmitWarning.pageError "A" 0, EmitWarning.emptyChapter "A"] := by
    have hfind : find_chapter_bookmarks
        [OutlineNode.dest "A" (some 0), OutlineNode.dest "B" (some 1)] 0 0 =
        [⟨"A", 0, 0⟩, ⟨"B", 1, 0⟩] := by
      simp [find_chapter_bookmarks]
    rw [extract_chapters_from_pdf, hfind]
    decide
  exact emitted_filename_index _ _ _ _ _ _ hrun ⟨2, "002_B.pdf", [1]⟩
    (List.mem_singleton.mpr rfl)
